import Mathlib

/-!
Verification of the markdown/chat-history presentation layer.

JavaScript strings are modelled as lists of characters (`JStr`); the
functions below are direct translations of the corresponding source
functions, line by line.
-/

set_option maxRecDepth 4000

/-- Model of a JavaScript string: a list of characters. -/
abbrev JStr := List Char

/-- The artifact marker substring used by the markdown layer. -/
def boltArtifactMarker : JStr := "__boltArtifact__".toList

/-- Model of JavaScript `s.includes(pat)`: substring containment. -/
def jsIncludes (s pat : JStr) : Bool := decide (pat <:+: s)

/-- Model of JavaScript `String.prototype.trim` restricted to the
whitespace characters relevant here (space, tab, CR, LF). -/
def trimChars (s : JStr) : JStr :=
  ((s.dropWhile Char.isWhitespace).reverse.dropWhile Char.isWhitespace).reverse

/-- A regex word character `\w`, i.e. `[A-Za-z0-9_]`. -/
def isWordChar (c : Char) : Bool := c.isAlphanum || c == '_'

/-- Model of testing the trimmed line against the regex `^` ``` `\w*$`:
three backticks followed by word characters only. -/
def matchesOpenFence (line : JStr) : Bool :=
  let t := trimChars line
  decide (t.take 3 = ['`', '`', '`']) && (t.drop 3).all isWordChar

/-- Model of testing the trimmed line against the regex `^` ``` `$`:
exactly three backticks. -/
def matchesCloseFence (line : JStr) : Bool :=
  decide (trimChars line = ['`', '`', '`'])

/-- Second `if` statement of `stripCodeFenceFromArtifact`: blank the
line after the marker line when it is a closing fence. -/
def stripCloseAt (lines1 : List JStr) (i : Nat) : List JStr :=
  if i < lines1.length - 1 ∧ matchesCloseFence (lines1.getD (i + 1) []) = true then
    lines1.set (i + 1) []
  else lines1

/-- Body of `stripCodeFenceFromArtifact` acting on the split lines,
given the index `i` of the first line containing the artifact marker:
the two `if` statements mutating `lines[i-1]` and `lines[i+1]`. -/
def stripLinesAt (lines : List JStr) (i : Nat) : List JStr :=
  if 0 < i ∧ matchesOpenFence (lines.getD (i - 1) []) = true then
    stripCloseAt (lines.set (i - 1) []) i
  else
    stripCloseAt lines i

/-- Translation of `stripCodeFenceFromArtifact` from the markdown
component: if the content contains the artifact marker, the line before
the first marker line is blanked when it is an opening code fence, and
the line after it is blanked when it is a closing code fence. -/
def stripCodeFenceFromArtifact (content : JStr) : JStr :=
  if content.isEmpty = true ∨ jsIncludes content boltArtifactMarker = false then
    content
  else
    match (content.splitOn '\n').findIdx? (fun line => jsIncludes line boltArtifactMarker) with
    | none => content
    | some i => ['\n'].intercalate (stripLinesAt (content.splitOn '\n') i)

/-! ### General helper lemmas -/

theorem jsIncludes_eq_true_iff {s pat : JStr} : jsIncludes s pat = true ↔ pat <:+: s := by
  simp [jsIncludes]

theorem splitOnP_elem_all_not {α : Type} (p : α → Bool) (xs : List α) :
    ∀ l ∈ xs.splitOnP p, ∀ y ∈ l, p y = false := by
  induction xs with
  | nil =>
    intro l hl y hy
    simp only [List.splitOnP_nil, List.mem_singleton] at hl
    subst hl
    simp at hy
  | cons x xs ih =>
    intro l hl y hy
    rw [List.splitOnP_cons] at hl
    by_cases hx : p x
    · rw [if_pos hx] at hl
      rcases List.mem_cons.mp hl with rfl | hl2
      · simp at hy
      · exact ih l hl2 y hy
    · rw [if_neg hx] at hl
      rcases hsp : xs.splitOnP p with _ | ⟨hd, tl⟩
      · exact absurd hsp (List.splitOnP_ne_nil p xs)
      · rw [hsp, List.modifyHead_cons] at hl
        rcases List.mem_cons.mp hl with rfl | hl2
        · rcases List.mem_cons.mp hy with rfl | hy2
          · simpa using hx
          · exact ih hd (by rw [hsp]; exact List.mem_cons_self hd tl) y hy2
        · exact ih l (by rw [hsp]; exact List.mem_cons_of_mem hd hl2) y hy

theorem splitOn_sep_not_mem {α : Type} [DecidableEq α] (x : α) (xs : List α) :
    ∀ l ∈ xs.splitOn x, x ∉ l := by
  intro l hl hx
  have hfalse := splitOnP_elem_all_not (fun y => y == x) xs l (by simpa [List.splitOn] using hl) x hx
  simp at hfalse

theorem mem_intersperse_of_mem {α : Type} (sep : α) :
    ∀ (L : List α) (x : α), x ∈ L → x ∈ L.intersperse sep
  | [], x, h => by simp at h
  | [b], x, h => by simpa using h
  | b :: c :: tl, x, h => by
    rw [List.intersperse_cons_cons]
    rcases List.mem_cons.mp h with rfl | h2
    · exact List.mem_cons_self ..
    · exact List.mem_cons_of_mem _ (List.mem_cons_of_mem _ (mem_intersperse_of_mem sep (c :: tl) x h2))

theorem isInfixOfFlatten_of_mem {α : Type} (L : List (List α)) (l : List α)
    (h : l ∈ L) : l <:+: L.flatten := by
  induction L with
  | nil => simp at h
  | cons x xs ih =>
    rcases List.mem_cons.mp h with rfl | h2
    · exact ⟨[], xs.flatten, by simp⟩
    · rcases ih h2 with ⟨s, t, hst⟩
      refine ⟨x ++ s, t, ?_⟩
      rw [List.flatten_cons, ← hst]
      simp [List.append_assoc]

theorem isInfixOfIntercalate_of_mem {α : Type} (sep : List α) {L : List (List α)} {l : List α}
    (h : l ∈ L) : l <:+: sep.intercalate L := by
  rw [List.intercalate]
  exact isInfixOfFlatten_of_mem _ l (mem_intersperse_of_mem sep L l h)

theorem isEmpty_false_of_marker {content : JStr} (h : boltArtifactMarker <:+: content) :
    content.isEmpty = false := by
  cases content with
  | cons a l => rfl
  | nil =>
    exfalso
    rcases h with ⟨s, t, hst⟩
    have h1 := List.append_eq_nil.mp hst
    have h2 := (List.append_eq_nil.mp h1.1).2
    exact absurd h2 (by decide)

theorem getD_set_ne {α : Type} (l : List α) (k j : Nat) (a d : α) (h : k ≠ j) :
    (l.set k a).getD j d = l.getD j d := by
  simp [List.getD_eq_getElem?_getD, List.getElem?_set_ne h]

theorem getD_set_self {α : Type} (l : List α) (k : Nat) (a d : α) (h : k < l.length) :
    (l.set k a).getD k d = a := by
  simp [List.getD_eq_getElem?_getD, List.getElem?_set_self h]

theorem getD_eq_getElem_of_lt {α : Type} (l : List α) (j : Nat) (d : α) (h : j < l.length) :
    l.getD j d = l.get ⟨j, h⟩ := by
  simp [List.getD_eq_getElem?_getD, List.getElem?_eq_getElem h]

/-! ### Facts about `stripCodeFenceFromArtifact` -/

theorem strip_eq_self_of_not_includes (content : JStr)
    (h : jsIncludes content boltArtifactMarker = false) :
    stripCodeFenceFromArtifact content = content := by
  unfold stripCodeFenceFromArtifact
  rw [if_pos (Or.inr h)]

theorem marker_infix_content_of_findIdx {content : JStr} {i : Nat}
    (hfind : (content.splitOn '\n').findIdx?
      (fun line => jsIncludes line boltArtifactMarker) = some i) :
    boltArtifactMarker <:+: content := by
  obtain ⟨hi, hpi, hmin⟩ := List.findIdx?_eq_some_iff_getElem.mp hfind
  have hline : boltArtifactMarker <:+: (content.splitOn '\n').get ⟨i, hi⟩ := by
    refine jsIncludes_eq_true_iff.mp ?_
    simpa using hpi
  have hmem : (content.splitOn '\n').get ⟨i, hi⟩ ∈ content.splitOn '\n' :=
    List.get_mem _ _ hi
  have hcontent : ['\n'].intercalate (content.splitOn '\n') = content :=
    List.intercalate_splitOn content '\n'
  rw [← hcontent]
  exact hline.trans (isInfixOfIntercalate_of_mem ['\n'] hmem)

theorem strip_eq_intercalate_stripLinesAt (content : JStr) (i : Nat)
    (hfind : (content.splitOn '\n').findIdx?
      (fun line => jsIncludes line boltArtifactMarker) = some i) :
    stripCodeFenceFromArtifact content =
      ['\n'].intercalate (stripLinesAt (content.splitOn '\n') i) := by
  have hmark := marker_infix_content_of_findIdx hfind
  have hempty := isEmpty_false_of_marker hmark
  have hinc : jsIncludes content boltArtifactMarker = true := jsIncludes_eq_true_iff.mpr hmark
  unfold stripCodeFenceFromArtifact
  rw [if_neg (by simp [hempty, hinc]), hfind]

theorem stripCloseAt_length (lines1 : List JStr) (i : Nat) :
    (stripCloseAt lines1 i).length = lines1.length := by
  unfold stripCloseAt
  split_ifs <;> simp

theorem stripLinesAt_length (lines : List JStr) (i : Nat) :
    (stripLinesAt lines i).length = lines.length := by
  unfold stripLinesAt
  split_ifs <;> simp [stripCloseAt_length]

theorem sep_not_mem_of_mem_set_nil {M : List JStr} {c : Char} (hsep : ∀ l ∈ M, c ∉ l)
    (k : Nat) : ∀ l ∈ M.set k [], c ∉ l := by
  intro l hl
  rcases List.mem_or_eq_of_mem_set hl with h | rfl
  · exact hsep l h
  · simp

/-- C4: when the first line containing the artifact marker is
immediately preceded by an opening code fence and immediately followed
by a closing code fence, both fence lines are replaced with empty
lines, and the number of lines is preserved. -/
theorem stripCodeFence_fenced_artifact (content : JStr) (i : Nat)
    (hfind : (content.splitOn '\n').findIdx?
      (fun line => jsIncludes line boltArtifactMarker) = some i)
    (hpos : 0 < i)
    (hlt : i + 1 < (content.splitOn '\n').length)
    (hopen : matchesOpenFence ((content.splitOn '\n').getD (i - 1) []) = true)
    (hclose : matchesCloseFence ((content.splitOn '\n').getD (i + 1) []) = true) :
    stripCodeFenceFromArtifact content =
      ['\n'].intercalate (((content.splitOn '\n').set (i - 1) []).set (i + 1) []) ∧
      ((stripCodeFenceFromArtifact content).splitOn '\n').length =
        (content.splitOn '\n').length := by
  have hstrip := strip_eq_intercalate_stripLinesAt content i hfind
  have hlines : stripLinesAt (content.splitOn '\n') i =
      (((content.splitOn '\n').set (i - 1) []).set (i + 1) []) := by
    unfold stripLinesAt
    rw [if_pos ⟨hpos, hopen⟩]
    unfold stripCloseAt
    rw [if_pos ?_]
    constructor
    · rw [List.length_set]
      omega
    · rw [getD_set_ne _ (i - 1) (i + 1) [] [] (by omega)]
      exact hclose
  have hsepM : ∀ l ∈ (((content.splitOn '\n').set (i - 1) []).set (i + 1) []), '\n' ∉ l :=
    sep_not_mem_of_mem_set_nil
      (sep_not_mem_of_mem_set_nil (splitOn_sep_not_mem '\n' content) (i - 1)) (i + 1)
  have hMne : (((content.splitOn '\n').set (i - 1) []).set (i + 1) []) ≠ [] := by
    intro hnil
    have hlen := congrArg List.length hnil
    simp only [List.length_set, List.length_nil] at hlen
    omega
  have hsplit := List.splitOn_intercalate
    ((((content.splitOn '\n')).set (i - 1) []).set (i + 1) []) '\n' hsepM hMne
  constructor
  · rw [hstrip, hlines]
  · rw [hstrip, hlines, hsplit]
    simp

/-- C4 witness: a concrete fenced artifact marker; both fences are
blanked and the line count is preserved. -/
theorem stripCodeFence_fenced_artifact_witness :
    stripCodeFenceFromArtifact ("```\n__boltArtifact__\n```".toList) =
      ['\n'].intercalate
        ((("```\n__boltArtifact__\n```".toList.splitOn '\n').set 0 []).set 2 []) ∧
      ((stripCodeFenceFromArtifact ("```\n__boltArtifact__\n```".toList)).splitOn '\n').length =
        ("```\n__boltArtifact__\n```".toList.splitOn '\n').length :=
  stripCodeFence_fenced_artifact ("```\n__boltArtifact__\n```".toList) 1
    (by decide) (by decide) (by decide) (by decide) (by decide)

/-- C5: a string without the artifact marker is returned unchanged, and
the transform is therefore idempotent on such inputs. -/
theorem stripCodeFence_no_marker_id (content : JStr)
    (h : jsIncludes content boltArtifactMarker = false) :
    stripCodeFenceFromArtifact content = content ∧
      stripCodeFenceFromArtifact (stripCodeFenceFromArtifact content) =
        stripCodeFenceFromArtifact content := by
  have h1 := strip_eq_self_of_not_includes content h
  exact ⟨h1, by rw [h1, h1]⟩

/-- C5 witness: a concrete marker-free string is returned unchanged. -/
theorem stripCodeFence_no_marker_id_witness :
    stripCodeFenceFromArtifact ("hello\nworld".toList) = "hello\nworld".toList ∧
      stripCodeFenceFromArtifact (stripCodeFenceFromArtifact ("hello\nworld".toList)) =
        stripCodeFenceFromArtifact ("hello\nworld".toList) :=
  stripCodeFence_no_marker_id ("hello\nworld".toList) (by decide)

theorem getD_set_same_nil (l : List JStr) (k : Nat) : (l.set k []).getD k [] = [] := by
  by_cases h : k < l.length
  · exact getD_set_self l k [] [] h
  · rw [List.getD_eq_getElem?_getD, List.getElem?_eq_none (by simp; omega)]
    rfl

theorem stripCloseAt_getD_ne (lines1 : List JStr) (i j : Nat) (h : i + 1 ≠ j) :
    (stripCloseAt lines1 i).getD j [] = lines1.getD j [] := by
  unfold stripCloseAt
  split_ifs with hc
  · exact getD_set_ne _ _ _ _ _ h
  · rfl

theorem stripLinesAt_getD_self (lines : List JStr) (i : Nat) :
    (stripLinesAt lines i).getD i [] = lines.getD i [] := by
  unfold stripLinesAt
  split_ifs with hc
  · obtain ⟨hipos, hof⟩ := hc
    rw [stripCloseAt_getD_ne _ _ _ (by omega), getD_set_ne _ _ _ _ _ (by omega)]
  · rw [stripCloseAt_getD_ne _ _ _ (by omega)]

theorem stripLinesAt_getD_lt (lines : List JStr) (i j : Nat) (hj : j < i) :
    (stripLinesAt lines i).getD j [] = lines.getD j [] ∨
      (stripLinesAt lines i).getD j [] = [] := by
  unfold stripLinesAt
  split_ifs with hc
  · obtain ⟨hipos, hof⟩ := hc
    by_cases hji : j = i - 1
    · subst hji
      right
      rw [stripCloseAt_getD_ne _ _ _ (by omega), getD_set_same_nil]
    · left
      rw [stripCloseAt_getD_ne _ _ _ (by omega), getD_set_ne _ _ _ _ _ (by omega)]
  · left
    rw [stripCloseAt_getD_ne _ _ _ (by omega)]

theorem stripLinesAt_sep_not_mem (lines : List JStr) (i : Nat)
    (hsep : ∀ l ∈ lines, '\n' ∉ l) : ∀ l ∈ stripLinesAt lines i, '\n' ∉ l := by
  unfold stripLinesAt
  split_ifs with hc
  · have h1 := sep_not_mem_of_mem_set_nil hsep (i - 1)
    unfold stripCloseAt
    split_ifs with hc2
    · exact sep_not_mem_of_mem_set_nil h1 (i + 1)
    · exact h1
  · unfold stripCloseAt
    split_ifs with hc2
    · exact sep_not_mem_of_mem_set_nil hsep (i + 1)
    · exact hsep

theorem stripLinesAt_openFence_false (lines : List JStr) (i : Nat) :
    ¬(0 < i ∧ matchesOpenFence ((stripLinesAt lines i).getD (i - 1) []) = true) := by
  rintro ⟨hipos, hof⟩
  revert hof
  unfold stripLinesAt
  split_ifs with hc
  · rw [stripCloseAt_getD_ne _ _ _ (by omega), getD_set_same_nil]
    decide
  · rw [stripCloseAt_getD_ne _ _ _ (by omega)]
    intro hof
    exact hc ⟨hipos, hof⟩

theorem stripLinesAt_closeFence_false (lines : List JStr) (i : Nat) :
    ¬(i < (stripLinesAt lines i).length - 1 ∧
      matchesCloseFence ((stripLinesAt lines i).getD (i + 1) []) = true) := by
  rintro ⟨hlt, hcf⟩
  rw [stripLinesAt_length] at hlt
  revert hcf
  unfold stripLinesAt
  split_ifs with hc
  · unfold stripCloseAt
    split_ifs with hc2
    · rw [getD_set_same_nil]
      decide
    · intro hcf
      apply hc2
      exact ⟨by simpa using hlt, hcf⟩
  · unfold stripCloseAt
    split_ifs with hc2
    · rw [getD_set_same_nil]
      decide
    · intro hcf
      exact hc2 ⟨hlt, hcf⟩

theorem strip_intercalate_fixed (M : List JStr) (i : Nat)
    (hlen : i < M.length)
    (hmark : jsIncludes (M.getD i []) boltArtifactMarker = true)
    (hmin : ∀ j, j < i → jsIncludes (M.getD j []) boltArtifactMarker = false)
    (hsep : ∀ l ∈ M, '\n' ∉ l)
    (hopen : ¬(0 < i ∧ matchesOpenFence (M.getD (i - 1) []) = true))
    (hclose : ¬(i < M.length - 1 ∧ matchesCloseFence (M.getD (i + 1) []) = true)) :
    stripCodeFenceFromArtifact (['\n'].intercalate M) = ['\n'].intercalate M := by
  have hMne : M ≠ [] := by
    intro h
    subst h
    simp at hlen
  have hsplit : (['\n'].intercalate M).splitOn '\n' = M :=
    List.splitOn_intercalate M '\n' hsep hMne
  have hfind : ((['\n'].intercalate M).splitOn '\n').findIdx?
      (fun line => jsIncludes line boltArtifactMarker) = some i := by
    rw [hsplit, List.findIdx?_eq_some_iff_getElem]
    refine ⟨hlen, ?_, ?_⟩
    · have := hmark
      rw [getD_eq_getElem_of_lt M i [] hlen] at this
      simpa using this
    · intro j hj
      have := hmin j hj
      rw [getD_eq_getElem_of_lt M j [] (by omega)] at this
      simpa [List.get_eq_getElem] using this
  have h1 := strip_eq_intercalate_stripLinesAt (['\n'].intercalate M) i hfind
  rw [h1, hsplit]
  have h2 : stripLinesAt M i = M := by
    unfold stripLinesAt
    rw [if_neg hopen]
    unfold stripCloseAt
    rw [if_neg hclose]
  rw [h2]

/-- C9: stripCodeFenceFromArtifact is idempotent on every input string,
including strings containing the artifact marker. -/
theorem stripCodeFence_idempotent (content : JStr) :
    stripCodeFenceFromArtifact (stripCodeFenceFromArtifact content) =
      stripCodeFenceFromArtifact content := by
  by_cases hinc : jsIncludes content boltArtifactMarker = false
  · rw [strip_eq_self_of_not_includes content hinc,
      strip_eq_self_of_not_includes content hinc]
  · have hinc' : jsIncludes content boltArtifactMarker = true := by
      cases h : jsIncludes content boltArtifactMarker
      · exact absurd h hinc
      · rfl
    by_cases hempty : content.isEmpty = true
    · have hnil : content = [] := by
        cases content with
        | nil => rfl
        | cons a l => simp at hempty
      rw [hnil] at hinc'
      exact absurd hinc' (by decide)
    · cases hfind : (content.splitOn '\n').findIdx?
        (fun line => jsIncludes line boltArtifactMarker) with
      | none =>
        have hid : stripCodeFenceFromArtifact content = content := by
          unfold stripCodeFenceFromArtifact
          rw [if_neg (by simp [hempty, hinc']), hfind]
        rw [hid, hid]
      | some i =>
        obtain ⟨hi, hpi, hmin⟩ := List.findIdx?_eq_some_iff_getElem.mp hfind
        have h1 := strip_eq_intercalate_stripLinesAt content i hfind
        rw [h1]
        apply strip_intercalate_fixed (stripLinesAt (content.splitOn '\n') i) i
        · rw [stripLinesAt_length]
          exact hi
        · rw [stripLinesAt_getD_self, getD_eq_getElem_of_lt _ _ _ hi]
          simpa [List.get_eq_getElem] using hpi
        · intro j hj
          rcases stripLinesAt_getD_lt (content.splitOn '\n') i j hj with heq | heq
          · rw [heq, getD_eq_getElem_of_lt _ _ _ (by omega)]
            have h2 := hmin j hj
            simpa [List.get_eq_getElem] using h2
          · rw [heq]
            decide
        · exact stripLinesAt_sep_not_mem _ _ (splitOn_sep_not_mem '\n' content)
        · exact stripLinesAt_openFence_false _ _
        · exact stripLinesAt_closeFence_false _ _

/-!
### History item click model

The `HistoryItem` component attaches `handleItemClick` to the outer row
and to the inner anchor (both only in selection mode), a
`stopPropagation` handler to the checkbox wrapper, and per-action
handlers to the export/duplicate/rename/delete buttons nested inside
the anchor.  A click is dispatched to the handlers of the target
element and of its ancestors in bubbling order; a handler that calls
`stopPropagation` suppresses all later handlers; the default
navigation of the anchor happens only when the anchor is on the
propagation path and no handler called `preventDefault`.
-/

/-- State of a bubbling click event plus counts of callback invocations. -/
structure EventCtx where
  propagationStopped : Bool
  defaultPrevented : Bool
  toggleSelectionCalls : Nat
  deleteCalls : Nat
  exportCalls : Nat
  duplicateCalls : Nat
  renameToggleCalls : Nat
deriving DecidableEq

def initEvent : EventCtx := ⟨false, false, 0, 0, 0, 0, 0⟩

def preventDefault (e : EventCtx) : EventCtx := { e with defaultPrevented := true }

def stopPropagation (e : EventCtx) : EventCtx := { e with propagationStopped := true }

/-- Translation of `handleItemClick`: in selection mode prevent
default, stop propagation, and invoke `onToggleSelection` when it was
supplied. -/
def handleItemClick (selectionMode hasToggle : Bool) (e : EventCtx) : EventCtx :=
  if selectionMode then
    let e2 := stopPropagation (preventDefault e)
    if hasToggle then { e2 with toggleSelectionCalls := e2.toggleSelectionCalls + 1 } else e2
  else e

/-- Translation of `handleDeleteClick`: prevent default, stop
propagation, and invoke `onDelete` when it was supplied. -/
def handleDeleteClick (hasOnDelete : Bool) (e : EventCtx) : EventCtx :=
  let e2 := stopPropagation (preventDefault e)
  if hasOnDelete then { e2 with deleteCalls := e2.deleteCalls + 1 } else e2

/-- Translation of the export button handler: prevent default and call
`exportChat`. -/
def exportClick (e : EventCtx) : EventCtx :=
  let e1 := preventDefault e
  { e1 with exportCalls := e1.exportCalls + 1 }

/-- Translation of the duplicate button handler: prevent default and
call `onDuplicate`. -/
def duplicateClick (e : EventCtx) : EventCtx :=
  let e1 := preventDefault e
  { e1 with duplicateCalls := e1.duplicateCalls + 1 }

/-- Translation of the rename button handler: prevent default and call
`toggleEditMode`. -/
def renameClick (e : EventCtx) : EventCtx :=
  let e1 := preventDefault e
  { e1 with renameToggleCalls := e1.renameToggleCalls + 1 }

/-- Translation of the checkbox wrapper handler: stop propagation only. -/
def checkboxWrapperClick (e : EventCtx) : EventCtx := stopPropagation e

/-- Where a click lands inside a rendered (non-editing) history item. -/
inductive ClickTarget where
  | row
  | checkboxArea
  | anchor
  | exportButton
  | duplicateButton
  | renameButton
  | deleteButton
deriving DecidableEq

/-- The conditionally attached row/anchor handler:
`onClick=(selectionMode ? handleItemClick : undefined)`. -/
def rowHandlers (selectionMode hasToggle : Bool) : List (EventCtx → EventCtx) :=
  if selectionMode then [handleItemClick selectionMode hasToggle] else []

/-- Handlers encountered by a bubbling click, target first.  Action
buttons sit inside the anchor, which sits inside the row. -/
def handlerChain (selectionMode hasToggle hasOnDelete : Bool) :
    ClickTarget → List (EventCtx → EventCtx)
  | .row => rowHandlers selectionMode hasToggle
  | .checkboxArea => checkboxWrapperClick :: rowHandlers selectionMode hasToggle
  | .anchor => rowHandlers selectionMode hasToggle ++ rowHandlers selectionMode hasToggle
  | .exportButton =>
      exportClick :: (rowHandlers selectionMode hasToggle ++ rowHandlers selectionMode hasToggle)
  | .duplicateButton =>
      duplicateClick :: (rowHandlers selectionMode hasToggle ++ rowHandlers selectionMode hasToggle)
  | .renameButton =>
      renameClick :: (rowHandlers selectionMode hasToggle ++ rowHandlers selectionMode hasToggle)
  | .deleteButton =>
      handleDeleteClick hasOnDelete ::
        (rowHandlers selectionMode hasToggle ++ rowHandlers selectionMode hasToggle)

/-- Run the handlers in bubbling order, honouring `stopPropagation`. -/
def dispatchClick : List (EventCtx → EventCtx) → EventCtx → EventCtx
  | [], e => e
  | h :: rest, e =>
    if e.propagationStopped then e else dispatchClick rest (h e)

def clickOutcome (selectionMode hasToggle hasOnDelete : Bool) (t : ClickTarget) : EventCtx :=
  dispatchClick (handlerChain selectionMode hasToggle hasOnDelete t) initEvent

/-- Whether the anchor lies on the propagation path of a click. -/
def anchorOnPath : ClickTarget → Bool
  | .row => false
  | .checkboxArea => false
  | _ => true

/-- The anchor performs its default navigation exactly when it is on
the click path and no handler prevented the default action. -/
def rowNavigates (selectionMode hasToggle hasOnDelete : Bool) (t : ClickTarget) : Bool :=
  anchorOnPath t && !(clickOutcome selectionMode hasToggle hasOnDelete t).defaultPrevented

/-- C1 counterexample: in selection mode, a click on the export action
button does invoke the selection-toggle callback, because the export
handler calls only preventDefault and the event bubbles up to
`handleItemClick` on the anchor; so the four action buttons do not all stop
propagation as the claim states. -/
theorem historyItem_export_click_toggles :
    (clickOutcome true true true ClickTarget.exportButton).toggleSelectionCalls = 1 ∧
      (clickOutcome true true true ClickTarget.exportButton).exportCalls = 1 := by decide

/-- C1 (amended): the delete handler stops propagation, so a delete
click never triggers navigation or selection toggling in either mode;
the export, duplicate and rename handlers call only preventDefault, so
they never trigger navigation, but in selection mode their clicks
bubble to the item-click handler on the anchor and invoke the
selection-toggle callback once. -/
theorem historyItem_action_buttons (sm : Bool) :
    (clickOutcome sm true true ClickTarget.deleteButton).toggleSelectionCalls = 0 ∧
    rowNavigates sm true true ClickTarget.deleteButton = false ∧
    (clickOutcome sm true true ClickTarget.deleteButton).deleteCalls = 1 ∧
    rowNavigates sm true true ClickTarget.exportButton = false ∧
    rowNavigates sm true true ClickTarget.duplicateButton = false ∧
    rowNavigates sm true true ClickTarget.renameButton = false ∧
    (clickOutcome sm true true ClickTarget.exportButton).toggleSelectionCalls
        = (if sm then 1 else 0) ∧
    (clickOutcome sm true true ClickTarget.duplicateButton).toggleSelectionCalls
        = (if sm then 1 else 0) ∧
    (clickOutcome sm true true ClickTarget.renameButton).toggleSelectionCalls
        = (if sm then 1 else 0) := by
  cases sm <;> decide

/-- C3: in selection mode, clicking the row content (the anchor, outside
the checkbox) invokes the selection-toggle callback exactly once -
propagation stops at the anchor, so the identical row handler does not
run a second time - and prevents anchor navigation; out of selection
mode the click navigates and the callback is not invoked. -/
theorem historyItem_row_click_selection :
    (clickOutcome true true true ClickTarget.anchor).toggleSelectionCalls = 1 ∧
    rowNavigates true true true ClickTarget.anchor = false ∧
    (clickOutcome false true true ClickTarget.anchor).toggleSelectionCalls = 0 ∧
    rowNavigates false true true ClickTarget.anchor = true := by decide

/-!
### Markdown pre-block renderer

The `pre` component override inspects `node?.children ?? []`: when the
first child is a `code` element it reads `firstChild.children[0].type`
without guarding against an empty child list - accessing a property of
`undefined` throws a TypeError, modelled as `Except.error`.
-/

/-- A rendered-markdown (hast) node as seen by the custom renderers. -/
inductive HNode where
  | element (tagName : JStr) (className : Option JStr) (children : List HNode)
  | text (value : JStr)
  | comment

/-- JavaScript `node?.children ?? []`. -/
def nodeChildren : Option HNode → List HNode
  | some (.element _ _ cs) => cs
  | _ => []

inductive JsError where
  | typeError
deriving DecidableEq

inductive PreRender where
  | codeBlock (language : JStr) (code : JStr)
  | passthrough
deriving DecidableEq

def languageClassChars : JStr := "language-".toList

/-- Model of `/language-(\w+)/.exec(s)`: find the first position where
`language-` is followed by at least one word character and return the
maximal word-character run (the capture group). -/
def findLanguageMatch : JStr → Option JStr
  | [] => none
  | c :: cs =>
    if languageClassChars.isPrefixOf (c :: cs)
        && !(((c :: cs).drop 9).takeWhile isWordChar).isEmpty then
      some (((c :: cs).drop 9).takeWhile isWordChar)
    else findLanguageMatch cs

/-- JavaScript stringification of the class value with empty-string
fallback: an absent class stringifies to the text undefined, which
contains no language- match either. -/
def classNameString : Option JStr → JStr
  | none => "undefined".toList
  | some s => s

/-- The destructuring of the regex result with default language
plaintext when there is no match. -/
def extractLanguage (className : Option JStr) : JStr :=
  match findLanguageMatch (classNameString className) with
  | some lang => lang
  | none => "plaintext".toList

/-- Translation of the `pre` component override, with a thrown
TypeError modelled as `Except.error`: evaluating
`firstChild.children[0].type` when the code element has no children
dereferences `undefined`. -/
def renderPre (node : Option HNode) : Except JsError PreRender :=
  match nodeChildren node with
  | [] => Except.ok PreRender.passthrough
  | firstChild :: _ =>
    match firstChild with
    | HNode.element tag cls grandkids =>
      if tag = "code".toList then
        match grandkids with
        | [] => Except.error JsError.typeError
        | g0 :: _ =>
          match g0 with
          | HNode.text v => Except.ok (PreRender.codeBlock (extractLanguage cls) v)
          | _ => Except.ok PreRender.passthrough
      else Except.ok PreRender.passthrough
    | _ => Except.ok PreRender.passthrough

/-- C2: rendering is claimed never to throw, but a preformatted node
whose first child is a code element with an empty children list makes
the renderer dereference `undefined` and throw a TypeError. -/
theorem renderPre_empty_code_children_throws :
    renderPre (some (HNode.element ("pre".toList) none
      [HNode.element ("code".toList) none []])) = Except.error JsError.typeError := rfl

/-- C6 counterexample: a pre node with TWO children whose first child
is a code element with text content still renders the dedicated code
block instead of passing through, so the special case does not require
the code element to be the sole child. -/
theorem renderPre_two_children_not_passthrough :
    renderPre (some (HNode.element ("pre".toList) none
      [HNode.element ("code".toList) none [HNode.text ("x".toList)],
       HNode.text ("y".toList)]))
      = Except.ok (PreRender.codeBlock ("plaintext".toList) ("x".toList)) ∧
    renderPre (some (HNode.element ("pre".toList) none
      [HNode.element ("code".toList) none [HNode.text ("x".toList)],
       HNode.text ("y".toList)]))
      ≠ Except.ok PreRender.passthrough := by
  refine ⟨rfl, fun h => ?_⟩
  have h2 : Except.ok (PreRender.codeBlock ("plaintext".toList) ("x".toList))
      = (Except.ok PreRender.passthrough : Except JsError PreRender) := h
  simp at h2

/-- C6 (amended): the special case keys on the first child only.  A pre
node whose first child is a code element whose own first child is a
text node renders the dedicated code block even when further children
follow; when the children list is empty, the first child is a text
node, the first child is a non-code element, or the first child of the
code element is itself an element, the node passes through unchanged.
(A code first child with an empty children list throws; see C2.) -/
theorem renderPre_first_child_cases (clsPre clsCode : Option JStr) (v tv tag : JStr)
    (gs rest rest2 : List HNode) (htag : tag ≠ "code".toList) :
    renderPre (some (HNode.element ("pre".toList) clsPre
        (HNode.element ("code".toList) clsCode (HNode.text v :: gs) :: rest)))
      = Except.ok (PreRender.codeBlock (extractLanguage clsCode) v) ∧
    renderPre none = Except.ok PreRender.passthrough ∧
    renderPre (some (HNode.element ("pre".toList) clsPre []))
      = Except.ok PreRender.passthrough ∧
    renderPre (some (HNode.element ("pre".toList) clsPre (HNode.text tv :: rest)))
      = Except.ok PreRender.passthrough ∧
    renderPre (some (HNode.element ("pre".toList) clsPre
        (HNode.element tag clsCode gs :: rest)))
      = Except.ok PreRender.passthrough ∧
    renderPre (some (HNode.element ("pre".toList) clsPre
        (HNode.element ("code".toList) clsCode (HNode.element tag clsCode gs :: rest2) :: rest)))
      = Except.ok PreRender.passthrough := by
  refine ⟨rfl, rfl, rfl, rfl, ?_, rfl⟩
  simp only [renderPre, nodeChildren]
  rw [if_neg htag]

/-- C6 witness: the amended cases at concrete nodes. -/
theorem renderPre_first_child_cases_witness :
    renderPre (some (HNode.element ("pre".toList) none
        (HNode.element ("code".toList) none (HNode.text ("x".toList) :: []) :: [])))
      = Except.ok (PreRender.codeBlock (extractLanguage none) ("x".toList)) ∧
    renderPre none = Except.ok PreRender.passthrough ∧
    renderPre (some (HNode.element ("pre".toList) none []))
      = Except.ok PreRender.passthrough ∧
    renderPre (some (HNode.element ("pre".toList) none (HNode.text ("y".toList) :: [])))
      = Except.ok PreRender.passthrough ∧
    renderPre (some (HNode.element ("pre".toList) none
        (HNode.element ("span".toList) none [] :: [])))
      = Except.ok PreRender.passthrough ∧
    renderPre (some (HNode.element ("pre".toList) none
        (HNode.element ("code".toList) none (HNode.element ("span".toList) none [] :: []) :: [])))
      = Except.ok PreRender.passthrough :=
  renderPre_first_child_cases none none ("x".toList) ("y".toList) ("span".toList)
    [] [] [] (by decide)

/-- C7: language extraction from the class of the code element. -/
theorem preBlock_language_extraction :
    extractLanguage (some ("language-python".toList)) = "python".toList ∧
    extractLanguage (some ("language-".toList)) = "plaintext".toList ∧
    extractLanguage none = "plaintext".toList := by decide

/-!
### Quick-action button

The button override reads `type`, `message`, `path`, `href` from the
element data attributes (kebab-case with camel-case fallback via `||`),
selects an icon from a fixed lookup table (defaulting to a question
icon), and on click dispatches exactly one of: open in workbench,
append a user message, switch chat mode and append, or open a link.
-/

/-- A JavaScript attribute value as read off `node.properties`. -/
inductive JSVal where
  | str (s : JStr)
  | undef
  | boolV (b : Bool)
deriving DecidableEq

def JSVal.isString : JSVal → Bool
  | .str _ => true
  | _ => false

def JSVal.truthy : JSVal → Bool
  | .str s => !s.isEmpty
  | .undef => false
  | .boolV b => b

/-- JavaScript `a || b`. -/
def jsOr (a b : JSVal) : JSVal := if a.truthy then a else b

/-- Template interpolation of an optional string
(`${x}` is `"undefined"` when `x` is `undefined`). -/
def templateJS : Option JStr → JStr
  | some s => s
  | none => "undefined".toList

/-- Template interpolation of an attribute value. -/
def templateVal : JSVal → JStr
  | .str s => s
  | .undef => "undefined".toList
  | .boolV true => "true".toList
  | .boolV false => "false".toList

/-- The text of a dispatched quick-action message:
the Model and Provider annotation lines, each followed by a blank
line, then the message attribute. -/
def annotatedMessageText (model providerName : Option JStr) (message : JSVal) : JStr :=
  "[Model: ".toList ++ templateJS model ++ "]\n\n[Provider: ".toList
    ++ templateJS providerName ++ "]\n\n".toList ++ templateVal message

/-- Modelled: the platform `new URL(href, origin).toString()`.  With a
valid base origin the constructor virtually never throws, so the model
always succeeds; no claim exercises its failure branch (which the
source catches and logs). -/
def resolveUrl (href origin : JStr) : JStr :=
  if jsIncludes href ("://".toList) = true then href
  else if href.take 1 = ['/'] then origin ++ href
  else origin ++ '/' :: href

/-- Observable effects of one quick-action click. -/
structure QAEffects where
  workbenchOpens : List JSVal
  appendedMessages : List (JStr × JStr)
  chatModeSets : List JStr
  windowOpens : List JStr
deriving DecidableEq

def noEffects : QAEffects := ⟨[], [], [], []⟩

/-- The fixed icon lookup table of the quick-action button. -/
def iconClassMap : List (JStr × JStr) :=
  [("file".toList, "i-ph:file".toList),
   ("message".toList, "i-ph:chats".toList),
   ("implement".toList, "i-ph:code".toList),
   ("link".toList, "i-ph:link".toList)]

/-- Result of indexing a JavaScript object literal: either a string
value (an own property, or the fallback string after the nullish
check), or a member inherited from `Object.prototype` - a function or
object, which is neither null nor undefined. -/
inductive JsPropValue where
  | strVal (s : JStr)
  | protoMember (name : JStr)
deriving DecidableEq

/-- Property names an object literal inherits from `Object.prototype`:
indexing the literal with one of these returns the inherited member
instead of undefined. -/
def objectPrototypeKeys : List JStr :=
  ["constructor".toList, "hasOwnProperty".toList, "isPrototypeOf".toList,
   "propertyIsEnumerable".toList, "toLocaleString".toList, "toString".toList,
   "valueOf".toList, "__proto__".toList, "__defineGetter__".toList,
   "__defineSetter__".toList, "__lookupGetter__".toList, "__lookupSetter__".toList]

/-- JavaScript bracket indexing of an object literal with string keys:
an own property wins; otherwise the prototype chain is consulted, so a
key naming an `Object.prototype` member yields that inherited member;
only otherwise is the result undefined (`none`). -/
def jsObjectIndex (own : List (JStr × JStr)) (key : JStr) : Option JsPropValue :=
  match List.lookup key own with
  | some v => some (JsPropValue.strVal v)
  | none =>
    if objectPrototypeKeys.contains key then some (JsPropValue.protoMember key)
    else none

/-- Whether the type attribute is a string naming an inherited
`Object.prototype` member. -/
def namesObjectPrototypeMember : JSVal → Bool
  | .str s => objectPrototypeKeys.contains s
  | _ => false

/-- Translation of the icon selection: safeType is the type when it is
a string and the empty string otherwise; the icon is
`iconClassMap[safeType] ?? question`, where the nullish fallback fires
only when the bracket lookup (prototype chain included) is undefined. -/
def quickActionIconClass (type : JSVal) : JsPropValue :=
  let safeType : JStr :=
    match type with
    | .str s => s
    | _ => []
  match jsObjectIndex iconClassMap safeType with
  | some v => v
  | none => JsPropValue.strVal ("i-ph:question".toList)

/-- Translation of the quick-action `onClick` handler.  `hasAppend` and
`hasSetChatMode` record whether the optional `append` / `setChatMode`
capabilities were supplied; the appended message entries are
(role, text) pairs. -/
def quickActionClick (type message path href : JSVal) (hasAppend hasSetChatMode : Bool)
    (model providerName : Option JStr) (origin : JStr) : QAEffects :=
  if type = JSVal.str ("file".toList) then
    { noEffects with workbenchOpens := [path] }
  else if type = JSVal.str ("message".toList) ∧ hasAppend = true then
    { noEffects with appendedMessages :=
        [("user".toList, annotatedMessageText model providerName message)] }
  else if type = JSVal.str ("implement".toList) ∧ hasAppend = true ∧ hasSetChatMode = true then
    { noEffects with
        chatModeSets := ["build".toList],
        appendedMessages := [("user".toList, annotatedMessageText model providerName message)] }
  else if type = JSVal.str ("link".toList) ∧ href.isString = true then
    { noEffects with windowOpens := [resolveUrl (templateVal href) origin] }
  else noEffects

/-- Whether the type attribute is one of the four known quick-action
types (as a string). -/
def isKnownQuickActionType : JSVal → Bool
  | .str s =>
    s == "file".toList || s == "message".toList
      || s == "implement".toList || s == "link".toList
  | _ => false

/-- C8 counterexample: the type constructor is not one of the four
known quick-action types, yet the bracket lookup hits the member
inherited from `Object.prototype`, the nullish fallback never fires,
and the rendered icon is not the generic question icon. -/
theorem quickAction_prototype_icon_not_question :
    isKnownQuickActionType (JSVal.str ("constructor".toList)) = false ∧
    quickActionIconClass (JSVal.str ("constructor".toList))
      ≠ JsPropValue.strVal ("i-ph:question".toList) := by decide

/-- C8 (amended): a quick-action button whose type attribute is not one
of file, message, implement, link - including missing and non-string
values - dispatches nothing on click: no workbench open, no message
append, no chat-mode switch, no window open; and when the type
additionally does not name an inherited `Object.prototype` member
(constructor, toString, and the like) the rendered icon is the generic
question icon. -/
theorem quickAction_unknown_type (type message path href : JSVal)
    (hasAppend hasSetChatMode : Bool) (model providerName : Option JStr) (origin : JStr)
    (h : isKnownQuickActionType type = false) :
    quickActionClick type message path href hasAppend hasSetChatMode model providerName origin
      = noEffects ∧
    (namesObjectPrototypeMember type = false →
      quickActionIconClass type = JsPropValue.strVal ("i-ph:question".toList)) := by
  cases type with
  | str s =>
    simp only [isKnownQuickActionType, Bool.or_eq_false_iff, beq_eq_false_iff_ne] at h
    obtain ⟨⟨⟨h1, h2⟩, h3⟩, h4⟩ := h
    simp at h1 h2 h3 h4
    constructor
    · simp [quickActionClick, h1, h2, h3, h4]
    · intro hproto
      simp only [namesObjectPrototypeMember] at hproto
      have hp2 : ¬s ∈ objectPrototypeKeys := by simpa using hproto
      have hb1 : (s == ['f', 'i', 'l', 'e']) = false := by simp [h1]
      have hb2 : (s == ['m', 'e', 's', 's', 'a', 'g', 'e']) = false := by simp [h2]
      have hb3 : (s == ['i', 'm', 'p', 'l', 'e', 'm', 'e', 'n', 't']) = false := by simp [h3]
      have hb4 : (s == ['l', 'i', 'n', 'k']) = false := by simp [h4]
      simp [quickActionIconClass, jsObjectIndex, iconClassMap, List.lookup,
        hb1, hb2, hb3, hb4, hp2]
  | undef =>
    exact ⟨by simp [quickActionClick], fun hp => by decide⟩
  | boolV b =>
    exact ⟨by simp [quickActionClick], fun hp => by cases b <;> decide⟩

/-- C8 witness: an unknown string type, outside the prototype members,
with concrete attributes. -/
theorem quickAction_unknown_type_witness :
    quickActionClick (JSVal.str ("bogus".toList)) JSVal.undef JSVal.undef JSVal.undef
      true true none none [] = noEffects ∧
    quickActionIconClass (JSVal.str ("bogus".toList))
      = JsPropValue.strVal ("i-ph:question".toList) := by
  have h := quickAction_unknown_type (JSVal.str ("bogus".toList)) JSVal.undef JSVal.undef
    JSVal.undef true true none none [] (by decide)
  exact ⟨h.1, h.2 (by decide)⟩

/-- C10: for a message quick action with the append capability, and an
implement quick action with append and setChatMode, the dispatched
message has role user and its text is the message prefixed by the
Model and Provider annotation lines separated by blank lines - never
the raw message attribute alone. -/
theorem quickAction_message_annotated (message path href : JSVal)
    (hasSetChatMode : Bool) (model providerName : Option JStr) (origin : JStr) :
    (quickActionClick (JSVal.str ("message".toList)) message path href true hasSetChatMode
        model providerName origin).appendedMessages
      = [("user".toList,
          "[Model: ".toList ++ templateJS model ++ "]\n\n[Provider: ".toList
            ++ templateJS providerName ++ "]\n\n".toList ++ templateVal message)] ∧
    (quickActionClick (JSVal.str ("implement".toList)) message path href true true
        model providerName origin).appendedMessages
      = [("user".toList,
          "[Model: ".toList ++ templateJS model ++ "]\n\n[Provider: ".toList
            ++ templateJS providerName ++ "]\n\n".toList ++ templateVal message)] ∧
    annotatedMessageText model providerName message ≠ templateVal message := by
  refine ⟨rfl, rfl, fun heq => ?_⟩
  have hlen := congrArg List.length heq
  simp only [annotatedMessageText, List.length_append] at hlen
  have e1 : ("[Model: ".toList).length = 8 := by decide
  have e2 : ("]\n\n[Provider: ".toList).length = 14 := by decide
  have e3 : ("]\n\n".toList).length = 3 := by decide
  rw [e1, e2, e3] at hlen
  omega
